import Mathlib

/-!
# Verification of the GitHub Library Sync Agent (`github_sync.py`)

A shallow embedding, in Lean 4, of the core of `github_sync.py`:

* the MD5 fingerprint computation (`file_md5`, lines 153-158),
* the directory scanner (`collect_files`, lines 132-150),
* the remote-store helpers (`get_file_sha` lines 89-95, `put_file` lines 97-111,
  `ensure_repo_exists` lines 113-117, `create_repo` lines 119-128),
* the reconciliation loop (`run_sync`, lines 162-224).

Machine integers are modelled as `Nat` with explicit reduction `% 2^32`
(resp. `% 2^64`) where the Python code relies on fixed-width arithmetic
(only inside MD5).  Bytes are `Nat`s.  Fallible operations are modelled by
`Option`/an explicit error component.  The local filesystem and the remote
HTTP service are modelled by an explicit `World` value holding the responses
the run observes; the trace of remote calls issued by a run is recorded in a
`List RemoteCall` so that frame properties ("no write call is issued") are
statable.
-/

/-! ## MD5 (models Python's `hashlib.md5` incremental digest)

`file_md5` (lines 153-158) feeds 64 KiB chunks into an incremental MD5.
The digest state and compression function below follow RFC 1321: four 32-bit
registers, 64-byte blocks, 64 rounds.  32-bit words are `Nat`s kept below
`2^32` by explicit `% 4294967296`.
-/

/-- The four 32-bit MD5 registers. -/
structure MD5Regs where
  A : Nat
  B : Nat
  C : Nat
  D : Nat
deriving DecidableEq

/-- Round constants `K[i] = floor(abs(sin(i+1)) * 2^32)` of RFC 1321. -/
def md5K : List Nat :=
  [0xd76aa478, 0xe8c7b756, 0x242070db, 0xc1bdceee,
   0xf57c0faf, 0x4787c62a, 0xa8304613, 0xfd469501,
   0x698098d8, 0x8b44f7af, 0xffff5bb1, 0x895cd7be,
   0x6b901122, 0xfd987193, 0xa679438e, 0x49b40821,
   0xf61e2562, 0xc040b340, 0x265e5a51, 0xe9b6c7aa,
   0xd62f105d, 0x02441453, 0xd8a1e681, 0xe7d3fbc8,
   0x21e1cde6, 0xc33707d6, 0xf4d50d87, 0x455a14ed,
   0xa9e3e905, 0xfcefa3f8, 0x676f02d9, 0x8d2a4c8a,
   0xfffa3942, 0x8771f681, 0x6d9d6122, 0xfde5380c,
   0xa4beea44, 0x4bdecfa9, 0xf6bb4b60, 0xbebfbc70,
   0x289b7ec6, 0xeaa127fa, 0xd4ef3085, 0x04881d05,
   0xd9d4d039, 0xe6db99e5, 0x1fa27cf8, 0xc4ac5665,
   0xf4292244, 0x432aff97, 0xab9423a7, 0xfc93a039,
   0x655b59c3, 0x8f0ccc92, 0xffeff47d, 0x85845dd1,
   0x6fa87e4f, 0xfe2ce6e0, 0xa3014314, 0x4e0811a1,
   0xf7537e82, 0xbd3af235, 0x2ad7d2bb, 0xeb86d391]

/-- Per-round left-rotation amounts of RFC 1321. -/
def md5S : List Nat :=
  [7, 12, 17, 22, 7, 12, 17, 22, 7, 12, 17, 22, 7, 12, 17, 22,
   5, 9, 14, 20, 5, 9, 14, 20, 5, 9, 14, 20, 5, 9, 14, 20,
   4, 11, 16, 23, 4, 11, 16, 23, 4, 11, 16, 23, 4, 11, 16, 23,
   6, 10, 15, 21, 6, 10, 15, 21, 6, 10, 15, 21, 6, 10, 15, 21]

/-- 32-bit left rotation on a `Nat` already reduced below `2^32`. -/
def rotl32 (x s : Nat) : Nat :=
  ((x % 4294967296) * 2 ^ s + (x % 4294967296) / 2 ^ (32 - s)) % 4294967296

/-- Bitwise complement of a 32-bit word. -/
def not32 (x : Nat) : Nat := 4294967295 - x % 4294967296

/-- MD5 round functions F, G, H, I. -/
def mdF (b c d : Nat) : Nat := Nat.lor (Nat.land b c) (Nat.land (not32 b) d)

def mdG (b c d : Nat) : Nat := Nat.lor (Nat.land d b) (Nat.land (not32 d) c)

def mdH (b c d : Nat) : Nat := Nat.xor b (Nat.xor c d)

def mdI (b c d : Nat) : Nat := Nat.xor c (Nat.lor b (not32 d))

/-- The `i`-th little-endian 32-bit word of a 64-byte block. -/
def blockWord (block : List Nat) (i : Nat) : Nat :=
  block.getD (4 * i) 0 % 256
    + block.getD (4 * i + 1) 0 % 256 * 256
    + block.getD (4 * i + 2) 0 % 256 * 65536
    + block.getD (4 * i + 3) 0 % 256 * 16777216

/-- One MD5 compression: absorb a 64-byte block into the registers. -/
def md5Compress (r : MD5Regs) (block : List Nat) : MD5Regs :=
  let step : MD5Regs → Nat → MD5Regs := fun s i =>
    let fv :=
      if i < 16 then mdF s.B s.C s.D
      else if i < 32 then mdG s.B s.C s.D
      else if i < 48 then mdH s.B s.C s.D
      else mdI s.B s.C s.D
    let g :=
      if i < 16 then i
      else if i < 32 then (5 * i + 1) % 16
      else if i < 48 then (3 * i + 5) % 16
      else 7 * i % 16
    let tmp := (s.A + fv + md5K.getD i 0 + blockWord block g) % 4294967296
    ⟨s.D, (s.B + rotl32 tmp (md5S.getD i 0)) % 4294967296, s.B, s.C⟩
  let f := (List.range 64).foldl step r
  ⟨(r.A + f.A) % 4294967296, (r.B + f.B) % 4294967296,
   (r.C + f.C) % 4294967296, (r.D + f.D) % 4294967296⟩

/-- Consume every full 64-byte block of `bytes`, returning the new registers
and the remaining (< 64 bytes) tail. -/
def mdProcess (r : MD5Regs) (bytes : List Nat) : MD5Regs × List Nat :=
  if _h : 64 ≤ bytes.length then
    mdProcess (md5Compress r (bytes.take 64)) (bytes.drop 64)
  else
    (r, bytes)
termination_by bytes.length
decreasing_by simp only [List.length_drop]; omega

/-- The incremental digest state: registers, buffered tail, total byte count. -/
structure MD5State where
  regs : MD5Regs
  buf : List Nat
  len : Nat
deriving DecidableEq

/-- Models `hashlib.md5()`: the RFC 1321 initial register values, empty buffer. -/
def md5Init : MD5State := ⟨⟨0x67452301, 0xefcdab89, 0x98badcfe, 0x10325476⟩, [], 0⟩

/-- Models `h.update(data)`: append to the buffer and absorb every full block. -/
def md5Update (s : MD5State) (data : List Nat) : MD5State :=
  let p := mdProcess s.regs (s.buf ++ data)
  ⟨p.1, p.2, s.len + data.length⟩

/-- The `n` little-endian bytes of `v`. -/
def leBytes : Nat → Nat → List Nat
  | 0, _ => []
  | k + 1, v => v % 256 :: leBytes k (v / 256)

/-- MD5 padding for a message of `len` bytes: `0x80`, zeros to 56 mod 64,
then the bit length as a little-endian 64-bit quantity. -/
def md5Pad (len : Nat) : List Nat :=
  0x80 :: List.replicate ((119 - len % 64) % 64) 0 ++ leBytes 8 (8 * len % 2 ^ 64)

/-- Models `h.digest()`: pad, absorb, output the registers little-endian. -/
def md5Finalize (s : MD5State) : List Nat :=
  let p := mdProcess s.regs (s.buf ++ md5Pad s.len)
  leBytes 4 p.1.A ++ leBytes 4 p.1.B ++ leBytes 4 p.1.C ++ leBytes 4 p.1.D

/-- Lower-case hex character of a nibble. -/
def hexChar (n : Nat) : Char :=
  if n < 10 then Char.ofNat (48 + n) else Char.ofNat (87 + n)

/-- Models `h.hexdigest()`: the digest bytes as a lower-case hex string. -/
def hexDigest (bytes : List Nat) : String :=
  String.mk (bytes.foldr (fun b acc => hexChar (b / 16 % 16) :: hexChar (b % 16) :: acc) [])

/-- Models `iter(lambda: f.read(65536), b"")` (line 156): the file's bytes cut
into successive chunks of 65536 bytes, the last one possibly shorter. -/
def readChunks (l : List Nat) : List (List Nat) :=
  if l = [] then [] else l.take 65536 :: readChunks (l.drop 65536)
termination_by l.length
decreasing_by
  simp only [List.length_drop]
  have : l.length ≠ 0 := by simpa [List.length_eq_zero] using (by assumption : ¬l = [])
  omega

/-- Models `file_md5` (lines 153-158): stream the file's bytes through the
incremental digest in 64 KiB chunks and return the hex digest.  The content
of the file at `path` is the input; a read error is modelled at the call
site in the reconciliation loop. -/
def file_md5 (content : List Nat) : String :=
  hexDigest (md5Finalize ((readChunks content).foldl md5Update md5Init))

/-- The spec's description of the fingerprint ("the digest of the file's
full byte content taken at once"), stated as a second definition to be
compared with `file_md5`: one single `update` with the whole content. -/
def md5_oneshot_spec (content : List Nat) : String :=
  hexDigest (md5Finalize (md5Update md5Init content))

/-! ## Directory scanner (`collect_files`, lines 132-150)

The local tree is a finite rose tree of named directories and files (name
and byte size); `os.walk` visits a node's files and then descends into the
subdirectories that survive the in-place pruning
`dirs[:] = [d for d in dirs if d not in ignore]` (line 140); the pruning and
the descent are fused into one recursion below.  A yielded entry records the
repo-relative directory components, the file name and its size (the source
yields the absolute path and the `/`-joined relative path; the components
are the same data). -/

/-- One local file: base name and byte size (`st_size`). -/
structure FileInfo where
  name : String
  size : Nat
deriving DecidableEq

mutual
/-- A directory tree: named subdirectories and files. -/
inductive FSTree where
  | node (subdirs : DirEntries) (files : List FileInfo) : FSTree

/-- The list of named subdirectories of a node. -/
inductive DirEntries where
  | nil : DirEntries
  | cons (name : String) (t : FSTree) (rest : DirEntries) : DirEntries
end

/-- An entry yielded by the scanner: repo-relative directory components,
file name, byte size. -/
structure Entry where
  dirs : List String
  fname : String
  size : Nat
deriving DecidableEq

/-- Scanner configuration: the three filter parameters of `collect_files`.
`max_mb` is an integer, as in the shipped configuration
(`"max_file_size_mb": 10`); Python annotates the parameter as `float` and
truncates with `int(...)`, but for an integer limit the truncation is the
identity, and for integer byte sizes the strict comparison below agrees
with the comparison against the un-truncated product for every
non-negative limit, so the claims are unaffected. -/
structure ScanConfig where
  extensions : List String
  ignore_dirs : List String
  max_mb : ℤ
deriving DecidableEq

/-- The threshold `max_bytes = int(max_mb * 1024 * 1024)` (line 136). -/
def max_bytes (cfg : ScanConfig) : ℤ := cfg.max_mb * 1024 * 1024

/-- ASCII lower-casing of one character (models `str.lower()` on the ASCII
file suffixes and extension lists the config uses). -/
def lowerChar (c : Char) : Char :=
  if 'A' ≤ c ∧ c ≤ 'Z' then Char.ofNat (c.toNat + 32) else c

/-- ASCII lower-casing of a string. -/
def lowerStr (s : String) : String := String.mk (s.data.map lowerChar)

/-- Characters of the reversed name up to (excluding) the first dot;
`none` when the name has no dot. -/
def takeUntilDot : List Char → Option (List Char)
  | [] => none
  | c :: rest => if c = '.' then some [] else (takeUntilDot rest).map (fun l => c :: l)

/-- Models `pathlib.PurePath.suffix` (used on line 143): the final extension with
its leading dot; empty when the name has no dot, when the only dot is the
leading character, or when the dot is the final character. -/
def pathSuffix (name : String) : String :=
  let cs := name.data
  match takeUntilDot cs.reverse with
  | none => ""
  | some sfxRev =>
    if sfxRev.length = 0 then ""
    else if sfxRev.length + 1 = cs.length then ""
    else String.mk ('.' :: sfxRev.reverse)

/-- The per-file filter of `collect_files` (lines 142-150): skip when a
non-empty allow-list does not contain the lower-cased suffix, skip when the
size exceeds `max_bytes`, otherwise yield the entry. -/
def fileEntries (cfg : ScanConfig) (relDirs : List String) (files : List FileInfo) :
    List Entry :=
  files.filterMap fun f =>
    if cfg.extensions ≠ [] ∧ lowerStr (pathSuffix f.name) ∉ cfg.extensions.map lowerStr then
      none
    else if max_bytes cfg < (f.size : ℤ) then
      none
    else
      some ⟨relDirs, f.name, f.size⟩

mutual
/-- Models `os.walk` from one node: yield the node's matching files, then descend
top-down into the non-pruned subdirectories. -/
def collectNode (cfg : ScanConfig) (relDirs : List String) : FSTree → List Entry
  | .node subdirs files => fileEntries cfg relDirs files ++ collectDirs cfg relDirs subdirs

/-- Descend into each subdirectory whose base name is not in the deny-list
(the fusion of the line-140 pruning with the subsequent descent). -/
def collectDirs (cfg : ScanConfig) (relDirs : List String) : DirEntries → List Entry
  | .nil => []
  | .cons name t rest =>
      if name ∈ cfg.ignore_dirs then collectDirs cfg relDirs rest
      else collectNode cfg (relDirs ++ [name]) t ++ collectDirs cfg relDirs rest
end

/-- Models `collect_files(library_path, extensions, ignore_dirs, max_mb)`
(lines 132-150): walk the whole tree from the library root. -/
def collect_files (cfg : ScanConfig) (t : FSTree) : List Entry :=
  collectNode cfg [] t

mutual
/-- All files of a tree with their directory components relative to the
node, with no filtering at all (the raw content of the tree, used to state
which files the scanner may yield). -/
def filesOfNode : FSTree → List (List String × FileInfo)
  | .node subdirs files => files.map (fun f => ([], f)) ++ filesOfDirs subdirs

/-- All files found under a list of subdirectories. -/
def filesOfDirs : DirEntries → List (List String × FileInfo)
  | .nil => []
  | .cons name t rest => (filesOfNode t).map (fun p => (name :: p.1, p.2)) ++ filesOfDirs rest
end

/-! ## Remote store client and reconciliation loop (`run_sync`, lines 162-224)

The loop is verified for an arbitrary sequence of scanned files (the
sequence `collect_files` yields, line 192), an arbitrary initial persisted
cache, and arbitrary HTTP responses: all are packaged in a `World`.  A
scanned file carries the byte content the run reads from it, or `none` when
reading it raises `OSError` (both `file_md5`, line 194, and `read_bytes`,
line 207, read the same on-disk file).  Every remote call the run issues is
recorded in order in the result's trace. -/

/-- One file yielded by the scanner, as consumed by the loop: its
repo-relative path and the bytes the filesystem delivers for it (`none`
models a filesystem read error). -/
structure ScannedFile where
  repoPath : String
  content : Option (List Nat)
deriving DecidableEq

/-- A GitHub contents-API response to the `GET` of one path: HTTP status
and the value of the `"sha"` field of the JSON body, when present. -/
structure HttpResp where
  status : Nat
  shaField : Option String
deriving DecidableEq

/-- The run's environment: pre-flight responses, per-path GET/PUT
responses, the persisted cache loaded at start (line 190), the scanned
sequence (line 192), and the formatted date. -/
structure World where
  libraryIsDir : Bool
  repoAccessible : Bool
  createRepoStatus : Nat
  fileResp : String → HttpResp
  putStatus : String → Nat
  initCache : String → Option String
  scan : List ScannedFile
  date : String

/-- The configuration fields `run_sync` reads (lines 165-192). -/
structure Config where
  github_token : String
  github_username : String
  repo_name : String
  library_path : String
  branch : String
  commit_message : String
  dry_run : Bool
deriving DecidableEq

/-- The aggregate counters of one run (line 163). -/
structure Stats where
  uploaded : Nat
  skipped : Nat
  failed : Nat
  total : Nat
deriving DecidableEq

/-- A fatal, pre-flight or mid-run, abort of `run_sync` (`sys.exit` on
lines 171, 176, 185, or an uncaught `OSError` from a per-file read). -/
inductive SyncError where
  | configError (field : String)
  | libraryMissing
  | repoUnavailable
  | fsError (path : String)
deriving DecidableEq

/-- One remote HTTP call issued by the run, in issue order.  `getSha`
records the token the lookup returned; `putFile` records the payload of the
write: path, content, commit message, and the `"sha"` field actually placed
in the payload. -/
inductive RemoteCall where
  | ensureRepo
  | createRepo
  | getSha (path : String) (result : Option String)
  | putFile (path : String) (content : List Nat) (message : String) (sha : Option String)
deriving DecidableEq

/-- Whether a remote call is a file-content write. -/
def isPutFile : RemoteCall → Bool
  | .putFile _ _ _ _ => true
  | _ => false

/-- Whether a remote call is a per-file call (lookup or write). -/
def isFileCall : RemoteCall → Bool
  | .putFile _ _ _ _ => true
  | .getSha _ _ => true
  | _ => false

/-- The in-memory state threaded through the loop: counters, cache dict,
and the trace of remote calls issued so far. -/
structure LoopState where
  stats : Stats
  cache : String → Option String
  calls : List RemoteCall

/-- The outcome of a run: the returned stats or the fatal error, the
on-disk cache after the run, and the trace of remote calls. -/
structure RunResult where
  result : Except SyncError Stats
  persisted : String → Option String
  calls : List RemoteCall

/-- Models `ensure_repo_exists` (lines 113-117): `status == 200`. -/
def ensure_repo_exists (w : World) : Bool := w.repoAccessible

/-- Models `create_repo` (lines 119-128): a POST to `/user/repos`; succeeds on
status 201. -/
def create_repo (w : World) : Bool := w.createRepoStatus == 201

/-- Models `get_file_sha` (lines 89-95): return the `"sha"` of the GET response
when its status is 200, `None` for every other status. -/
def get_file_sha (w : World) (repo_path : String) : Option String :=
  if (w.fileResp repo_path).status = 200 then (w.fileResp repo_path).shaField else none

/-- The `"sha"` field `put_file` (lines 100-106) places in its payload:
`if sha: payload["sha"] = sha` — Python truthiness, so both `None` and the
empty string are omitted. -/
def shaPayload : Option String → Option String
  | none => none
  | some s => if s = "" then none else some s

/-- Whether the PUT of `put_file` succeeds: `status_code in (200, 201)`
(line 108). -/
def put_succeeds (w : World) (path : String) : Prop :=
  w.putStatus path = 200 ∨ w.putStatus path = 201

instance (w : World) (path : String) : Decidable (put_succeeds w path) := by
  unfold put_succeeds; infer_instance

/-- Models the Python dict assignment `cache[repo_path] = md5` (line 211). -/
def cacheInsert (c : String → Option String) (p v : String) : String → Option String :=
  fun q => if q = p then some v else c q

/-- Models `cfg["commit_message"].format(date=date_str)` (line 165), for templates
that use the `\x7bdate\x7d` placeholder (fuel-based single pass so the
definition evaluates by kernel reduction). -/
def replaceDateAux (date : List Char) : Nat → List Char → List Char
  | _, [] => []
  | 0, rest => rest
  | fuel + 1, c :: rest =>
      if (c :: rest).take 6 = "\x7bdate\x7d".data then
        date ++ replaceDateAux date fuel ((c :: rest).drop 6)
      else
        c :: replaceDateAux date fuel rest

/-- Format the commit-message template with the date string. -/
def formatMessage (template date : String) : String :=
  String.mk (replaceDateAux date.data template.data.length template.data)

/-- One iteration of the reconciliation loop (lines 192-214) on the scanned
file `f`: bump `total`; fingerprint the file (an `OSError` propagates and
aborts the run); skip when the cache matches; in dry-run count an upload
without any call; otherwise look the path up, issue the write, and on
success update the cache, on failure bump `failed`. -/
def processFile (cfg : Config) (w : World) (msg : String) (st : LoopState)
    (f : ScannedFile) : LoopState × Option SyncError :=
  match f.content with
  | none =>
      (⟨⟨st.stats.uploaded, st.stats.skipped, st.stats.failed, st.stats.total + 1⟩,
        st.cache, st.calls⟩, some (.fsError f.repoPath))
  | some bytes =>
      let md5 := file_md5 bytes
      if st.cache f.repoPath = some md5 then
        (⟨⟨st.stats.uploaded, st.stats.skipped + 1, st.stats.failed, st.stats.total + 1⟩,
          st.cache, st.calls⟩, none)
      else if cfg.dry_run then
        (⟨⟨st.stats.uploaded + 1, st.stats.skipped, st.stats.failed, st.stats.total + 1⟩,
          st.cache, st.calls⟩, none)
      else
        let sha := get_file_sha w f.repoPath
        let calls' := st.calls ++
          [.getSha f.repoPath sha, .putFile f.repoPath bytes msg (shaPayload sha)]
        if put_succeeds w f.repoPath then
          (⟨⟨st.stats.uploaded + 1, st.stats.skipped, st.stats.failed, st.stats.total + 1⟩,
            cacheInsert st.cache f.repoPath md5, calls'⟩, none)
        else
          (⟨⟨st.stats.uploaded, st.stats.skipped, st.stats.failed + 1, st.stats.total + 1⟩,
            st.cache, calls'⟩, none)

/-- The whole loop over the scanned sequence; an error aborts the
iteration, carrying the state reached so far. -/
def runLoop (cfg : Config) (w : World) (msg : String) :
    LoopState → List ScannedFile → LoopState × Option SyncError
  | st, [] => (st, none)
  | st, f :: rest =>
      match processFile cfg w msg st f with
      | (st', some e) => (st', some e)
      | (st', none) => runLoop cfg w msg st' rest

/-- Run the loop from the loaded cache and pre-flight trace, then persist
the cache (lines 216-218) — unless the run is a dry run or was aborted by
an uncaught exception. -/
def syncLoopRun (cfg : Config) (w : World) (msg : String) (calls0 : List RemoteCall) :
    RunResult :=
  match runLoop cfg w msg ⟨⟨0, 0, 0, 0⟩, w.initCache, calls0⟩ w.scan with
  | (st, some e) => ⟨.error e, w.initCache, st.calls⟩
  | (st, none) =>
      ⟨.ok st.stats, if cfg.dry_run then w.initCache else st.cache, st.calls⟩

/-- Models `run_sync` (lines 162-224): validate the four required config fields
(lines 168-171), check the library root (lines 173-176), run the pre-flight
repo check and, if needed, repo creation (lines 181-185), then run the
reconciliation loop and persist the cache. -/
def run_sync (cfg : Config) (w : World) : RunResult :=
  if cfg.github_token = "" then ⟨.error (.configError "github_token"), w.initCache, []⟩
  else if cfg.github_username = "" then ⟨.error (.configError "github_username"), w.initCache, []⟩
  else if cfg.repo_name = "" then ⟨.error (.configError "repo_name"), w.initCache, []⟩
  else if cfg.library_path = "" then ⟨.error (.configError "library_path"), w.initCache, []⟩
  else if w.libraryIsDir = false then ⟨.error .libraryMissing, w.initCache, []⟩
  else
    let msg := formatMessage cfg.commit_message w.date
    if ensure_repo_exists w then syncLoopRun cfg w msg [.ensureRepo]
    else if create_repo w then syncLoopRun cfg w msg [.ensureRepo, .createRepo]
    else ⟨.error .repoUnavailable, w.initCache, [.ensureRepo, .createRepo]⟩

/-- The conjunction of the pre-flight checks that let a run reach the
reconciliation loop. -/
def preflightOk (cfg : Config) (w : World) : Bool :=
  (cfg.github_token != "") && (cfg.github_username != "") && (cfg.repo_name != "") &&
  (cfg.library_path != "") && w.libraryIsDir && (ensure_repo_exists w || create_repo w)

/-! ## Concrete inputs used by witnesses and counterexamples -/

/-- A fully configured, non-preview configuration. -/
def exCfg : Config := ⟨"tok", "user", "repo", "/lib", "main", "msg", false⟩

/-- The same configuration with preview (dry-run) mode enabled. -/
def exCfgDry : Config := ⟨"tok", "user", "repo", "/lib", "main", "msg", true⟩

/-- A healthy world: accessible repo, one uncached readable file `a.py`,
remote GET 404 (file absent remotely), remote PUT 201. -/
def exWorld : World :=
  { libraryIsDir := true
    repoAccessible := true
    createRepoStatus := 0
    fileResp := fun _ => ⟨404, none⟩
    putStatus := fun _ => 201
    initCache := fun _ => none
    scan := [⟨"a.py", some [104, 105]⟩]
    date := "2025-01-01 00:00" }

/-- Same, but the repository is not accessible and creating it succeeds. -/
def exWorldNoRepo : World := { exWorld with repoAccessible := false, createRepoStatus := 201 }

/-- Same, but the first scanned file raises on read and a second, readable,
uploadable file follows it. -/
def exWorldReadErr : World := { exWorld with scan := [⟨"x.py", none⟩, ⟨"b.py", some [49]⟩] }

/-- Same, but the remote PUT fails with a 500. -/
def exWorldPutFail : World := { exWorld with putStatus := fun _ => 500 }

/-- A second run over the same files after the failed-PUT run, with the
cache that run persisted, and a now-healthy remote. -/
def exWorldRetry : World := { exWorld with initCache := (run_sync exCfg exWorldPutFail).persisted }

/-- A second run over the same files after the healthy run, with the cache
it persisted. -/
def exWorldSecond : World := { exWorld with initCache := (run_sync exCfg exWorld).persisted }

/-- Same as the healthy world, but the remote GET answers 200 with an empty
`"sha"` string. -/
def exWorldEmptySha : World := { exWorld with fileResp := fun _ => ⟨200, some ""⟩ }

/-- Same as the healthy world, but the remote GET answers 500 (server
error) with a `"sha"` field present in the body. -/
def exWorldLookup500 : World := { exWorld with fileResp := fun _ => ⟨500, some "abc"⟩ }

/-- An initial loop state: zero counters, empty cache, empty trace. -/
def exSt : LoopState := ⟨⟨0, 0, 0, 0⟩, fun _ => none, []⟩

/-- A scanner configuration: allow `.py`, deny `build`, 10 MB limit. -/
def exScanCfg : ScanConfig := ⟨[".py"], ["build"], 10⟩

/-- A library tree with a deny-listed directory holding an allow-listed
file, an over-limit file, and a file of exactly the limit size. -/
def exTree : FSTree :=
  .node (.cons "build" (.node .nil [⟨"b.py", 5⟩]) .nil)
    [⟨"a.py", 500⟩, ⟨"big.py", 10485761⟩, ⟨"edge.py", 10485760⟩]

/-! ## Theorems -/

/-- Processing an extended stream equals processing the first part and then
processing the leftover together with the extension (Merkle-Damgard style
composability of `mdProcess`). -/
theorem mdProcess_append (u : List Nat) (r : MD5Regs) (v : List Nat) :
    mdProcess r (u ++ v) = mdProcess (mdProcess r u).1 ((mdProcess r u).2 ++ v) := by
  by_cases h : 64 ≤ u.length
  · have hu : mdProcess r u = mdProcess (md5Compress r (u.take 64)) (u.drop 64) := by
      conv_lhs => rw [mdProcess]
      rw [dif_pos h]
    have huv : mdProcess r (u ++ v)
        = mdProcess (md5Compress r (u.take 64)) (u.drop 64 ++ v) := by
      conv_lhs => rw [mdProcess]
      rw [dif_pos (by simp only [List.length_append]; omega),
        List.take_append_of_le_length h, List.drop_append_of_le_length h]
    rw [huv, hu]
    exact mdProcess_append (u.drop 64) (md5Compress r (u.take 64)) v
  · have hu : mdProcess r u = (r, u) := by
      rw [mdProcess, dif_neg h]
    rw [hu]
termination_by u.length
decreasing_by simp only [List.length_drop]; omega

/-- Two successive `update` calls amount to one `update` with the
concatenated data. -/
theorem md5Update_append (s : MD5State) (x y : List Nat) :
    md5Update (md5Update s x) y = md5Update s (x ++ y) := by
  simp only [md5Update]
  rw [← List.append_assoc, mdProcess_append (s.buf ++ x) s.regs y]
  simp [List.length_append, Nat.add_assoc]

/-- Folding `update` over the 64 KiB chunks of a non-empty byte list equals a
single `update` with the whole list. -/
theorem foldl_readChunks (l : List Nat) (s : MD5State) (hne : l ≠ []) :
    (readChunks l).foldl md5Update s = md5Update s l := by
  rw [readChunks, if_neg hne]
  by_cases h : l.drop 65536 = []
  · have hlen : l.length ≤ 65536 := List.drop_eq_nil_iff.mp h
    rw [List.foldl_cons, readChunks, if_pos h, List.foldl_nil,
      List.take_of_length_le hlen]
  · rw [List.foldl_cons,
      foldl_readChunks (l.drop 65536) (md5Update s (l.take 65536)) h,
      md5Update_append, List.take_append_drop]
termination_by l.length
decreasing_by
  simp only [List.length_drop]
  have : l.length ≠ 0 := by simpa [List.length_eq_zero] using hne
  omega

/-- Claim C9 — Fingerprint determinism and chunking equivalence: for every
file content, the fingerprint computed by `file_md5` by streaming the bytes
in 64 KiB chunks through the incremental MD5 digest equals the digest of the
full byte content taken in one single update (`md5_oneshot_spec`).  Both
sides are pure functions of the byte content, so identical content always
yields an identical fingerprint. -/
theorem file_md5_eq_oneshot (content : List Nat) :
    file_md5 content = md5_oneshot_spec content := by
  unfold file_md5 md5_oneshot_spec
  by_cases h : content = []
  · subst h
    have h0 : md5Update md5Init [] = md5Init := by
      simp only [md5Update, md5Init]
      rw [mdProcess, dif_neg (by simp)]
      simp
    rw [h0]
    simp [readChunks]
  · rw [foldl_readChunks content md5Init h]

/-- Membership in the per-directory file filter. -/
theorem mem_fileEntries {cfg : ScanConfig} {relDirs : List String} {files : List FileInfo}
    {e : Entry} :
    e ∈ fileEntries cfg relDirs files ↔
      ∃ f ∈ files,
        ¬(cfg.extensions ≠ [] ∧ lowerStr (pathSuffix f.name) ∉ cfg.extensions.map lowerStr) ∧
        ¬(max_bytes cfg < (f.size : ℤ)) ∧ e = ⟨relDirs, f.name, f.size⟩ := by
  simp only [fileEntries, List.mem_filterMap]
  constructor
  · rintro ⟨f, hf, hsome⟩
    by_cases h1 : cfg.extensions ≠ [] ∧ lowerStr (pathSuffix f.name) ∉ cfg.extensions.map lowerStr
    · rw [if_pos h1] at hsome; cases hsome
    · rw [if_neg h1] at hsome
      by_cases h2 : max_bytes cfg < (f.size : ℤ)
      · rw [if_pos h2] at hsome; cases hsome
      · rw [if_neg h2] at hsome
        exact ⟨f, hf, h1, h2, (Option.some_inj.mp hsome).symm⟩
  · rintro ⟨f, hf, h1, h2, rfl⟩
    exact ⟨f, hf, by rw [if_neg h1, if_neg h2]⟩

mutual
/-- Every entry yielded from a node extends the accumulated directory path
only with components that are not deny-listed. -/
theorem collectNode_dirs_clean (cfg : ScanConfig) (relDirs : List String) :
    ∀ (t : FSTree) (e : Entry), e ∈ collectNode cfg relDirs t →
      ∃ ds, e.dirs = relDirs ++ ds ∧ ∀ d ∈ ds, d ∉ cfg.ignore_dirs
  | .node subdirs files, e, he => by
    rw [collectNode] at he
    rcases List.mem_append.mp he with hfe | hdir
    · rcases mem_fileEntries.mp hfe with ⟨f, _, _, _, rfl⟩
      exact ⟨[], by simp, by simp⟩
    · exact collectDirs_dirs_clean cfg relDirs subdirs e hdir

/-- The same, for the descent into a subdirectory list. -/
theorem collectDirs_dirs_clean (cfg : ScanConfig) (relDirs : List String) :
    ∀ (l : DirEntries) (e : Entry), e ∈ collectDirs cfg relDirs l →
      ∃ ds, e.dirs = relDirs ++ ds ∧ ∀ d ∈ ds, d ∉ cfg.ignore_dirs
  | .cons name t rest, e, he => by
    rw [collectDirs] at he
    by_cases hn : name ∈ cfg.ignore_dirs
    · rw [if_pos hn] at he
      exact collectDirs_dirs_clean cfg relDirs rest e he
    · rw [if_neg hn] at he
      rcases List.mem_append.mp he with hin | hrest
      · rcases collectNode_dirs_clean cfg (relDirs ++ [name]) t e hin with ⟨ds, hds, hcl⟩
        refine ⟨name :: ds, by simpa [List.append_assoc] using hds, ?_⟩
        intro d hd
        rcases List.mem_cons.mp hd with rfl | hd
        · exact hn
        · exact hcl d hd
      · exact collectDirs_dirs_clean cfg relDirs rest e hrest
end

mutual
/-- Every entry yielded from a node passed the size filter. -/
theorem collectNode_size_ok (cfg : ScanConfig) (relDirs : List String) :
    ∀ (t : FSTree) (e : Entry), e ∈ collectNode cfg relDirs t →
      ¬(max_bytes cfg < (e.size : ℤ))
  | .node subdirs files, e, he => by
    rw [collectNode] at he
    rcases List.mem_append.mp he with hfe | hdir
    · rcases mem_fileEntries.mp hfe with ⟨f, _, _, h2, rfl⟩
      exact h2
    · exact collectDirs_size_ok cfg relDirs subdirs e hdir

/-- The same, for the descent into a subdirectory list. -/
theorem collectDirs_size_ok (cfg : ScanConfig) (relDirs : List String) :
    ∀ (l : DirEntries) (e : Entry), e ∈ collectDirs cfg relDirs l →
      ¬(max_bytes cfg < (e.size : ℤ))
  | .cons name t rest, e, he => by
    rw [collectDirs] at he
    by_cases hn : name ∈ cfg.ignore_dirs
    · rw [if_pos hn] at he
      exact collectDirs_size_ok cfg relDirs rest e he
    · rw [if_neg hn] at he
      rcases List.mem_append.mp he with hin | hrest
      · exact collectNode_size_ok cfg (relDirs ++ [name]) t e hin
      · exact collectDirs_size_ok cfg relDirs rest e hrest
end

mutual
/-- Completeness of the walk: a file actually present in the tree, not
under any deny-listed directory, with an allowed extension and a size
within the limit, is yielded. -/
theorem mem_collectNode_of_filesOf (cfg : ScanConfig) (relDirs : List String) :
    ∀ (t : FSTree) (ds : List String) (fi : FileInfo),
      (ds, fi) ∈ filesOfNode t →
      (∀ d ∈ ds, d ∉ cfg.ignore_dirs) →
      ¬(cfg.extensions ≠ [] ∧ lowerStr (pathSuffix fi.name) ∉ cfg.extensions.map lowerStr) →
      ¬(max_bytes cfg < (fi.size : ℤ)) →
      (⟨relDirs ++ ds, fi.name, fi.size⟩ : Entry) ∈ collectNode cfg relDirs t
  | .node subdirs files, ds, fi, hf, hd, hext, hsz => by
    rw [filesOfNode] at hf
    rw [collectNode]
    rcases List.mem_append.mp hf with hfile | hsub
    · rcases List.mem_map.mp hfile with ⟨f, hfin, heq⟩
      rw [Prod.mk.injEq] at heq
      obtain ⟨rfl, rfl⟩ := heq
      refine List.mem_append_left _ (mem_fileEntries.mpr ⟨f, hfin, hext, hsz, ?_⟩)
      simp
    · exact List.mem_append_right _
        (mem_collectDirs_of_filesOf cfg relDirs subdirs ds fi hsub hd hext hsz)

/-- The same, for the descent into a subdirectory list. -/
theorem mem_collectDirs_of_filesOf (cfg : ScanConfig) (relDirs : List String) :
    ∀ (l : DirEntries) (ds : List String) (fi : FileInfo),
      (ds, fi) ∈ filesOfDirs l →
      (∀ d ∈ ds, d ∉ cfg.ignore_dirs) →
      ¬(cfg.extensions ≠ [] ∧ lowerStr (pathSuffix fi.name) ∉ cfg.extensions.map lowerStr) →
      ¬(max_bytes cfg < (fi.size : ℤ)) →
      (⟨relDirs ++ ds, fi.name, fi.size⟩ : Entry) ∈ collectDirs cfg relDirs l
  | .cons name t rest, ds, fi, hf, hd, hext, hsz => by
    rw [filesOfDirs] at hf
    rw [collectDirs]
    rcases List.mem_append.mp hf with hmap | hrest
    · rcases List.mem_map.mp hmap with ⟨p, hpin, heq⟩
      rw [Prod.mk.injEq] at heq
      obtain ⟨rfl, rfl⟩ := heq
      have hn : name ∉ cfg.ignore_dirs := hd name (List.mem_cons_self _ _)
      rw [if_neg hn]
      refine List.mem_append_left _ ?_
      have hrec := mem_collectNode_of_filesOf cfg (relDirs ++ [name]) t p.1 p.2
        hpin (fun d hdp => hd d (List.mem_cons_of_mem _ hdp)) hext hsz
      simpa [List.append_assoc] using hrec
    · by_cases hn : name ∈ cfg.ignore_dirs
      · rw [if_pos hn]
        exact mem_collectDirs_of_filesOf cfg relDirs rest ds fi hrest hd hext hsz
      · rw [if_neg hn]
        exact List.mem_append_right _
          (mem_collectDirs_of_filesOf cfg relDirs rest ds fi hrest hd hext hsz)
end

/-- A loop iteration on a readable file never aborts. -/
theorem processFile_some_snd (cfg : Config) (w : World) (msg : String) (st : LoopState)
    (f : ScannedFile) (b : List Nat) (h : f.content = some b) :
    (processFile cfg w msg st f).2 = none := by
  unfold processFile
  rw [h]
  dsimp only
  split_ifs <;> rfl

/-- A loop iteration that did not abort was on a readable file. -/
theorem processFile_ok_content (cfg : Config) (w : World) (msg : String) (st st' : LoopState)
    (f : ScannedFile) (h : processFile cfg w msg st f = (st', none)) :
    ∃ b, f.content = some b := by
  cases hc : f.content with
  | none =>
    unfold processFile at h
    rw [hc] at h
    simp at h
  | some b => exact ⟨b, rfl⟩

/-- A loop iteration bumps `total` by one and exactly one of the other three
counters by one, and never decreases `failed`. -/
theorem processFile_stats (cfg : Config) (w : World) (msg : String) (st st' : LoopState)
    (f : ScannedFile) (h : processFile cfg w msg st f = (st', none)) :
    st'.stats.total = st.stats.total + 1 ∧
    st'.stats.uploaded + st'.stats.skipped + st'.stats.failed
      = st.stats.uploaded + st.stats.skipped + st.stats.failed + 1 ∧
    st.stats.failed ≤ st'.stats.failed := by
  unfold processFile at h
  cases hc : f.content with
  | none => rw [hc] at h; simp at h
  | some b =>
    rw [hc] at h
    dsimp only at h
    split_ifs at h <;>
      (rw [Prod.mk.injEq] at h; obtain ⟨rfl, -⟩ := h; refine ⟨rfl, by dsimp only; omega, by dsimp only; omega⟩)

/-- `failed` never decreases across an iteration, abort included. -/
theorem processFile_failed_mono (cfg : Config) (w : World) (msg : String) (st : LoopState)
    (f : ScannedFile) :
    st.stats.failed ≤ (processFile cfg w msg st f).1.stats.failed := by
  unfold processFile
  cases f.content with
  | none => exact le_refl _
  | some b => dsimp only; split_ifs <;> simp

/-- A loop iteration never touches cache entries of other paths. -/
theorem processFile_cache_other (cfg : Config) (w : World) (msg : String) (st : LoopState)
    (f : ScannedFile) (q : String) (hq : q ≠ f.repoPath) :
    (processFile cfg w msg st f).1.cache q = st.cache q := by
  unfold processFile
  cases f.content with
  | none => rfl
  | some b => dsimp only; split_ifs <;> simp [cacheInsert, hq]

/-- In dry-run mode an iteration issues no call and leaves the cache dict
untouched. -/
theorem processFile_dry_frame (cfg : Config) (w : World) (msg : String) (st : LoopState)
    (f : ScannedFile) (hdry : cfg.dry_run = true) :
    (processFile cfg w msg st f).1.calls = st.calls ∧
    (processFile cfg w msg st f).1.cache = st.cache := by
  unfold processFile
  cases f.content with
  | none => exact ⟨rfl, rfl⟩
  | some b =>
    dsimp only
    split_ifs with h1 h2 <;> first
      | exact ⟨rfl, rfl⟩
      | exact absurd hdry h2

/-- A completed loop bumps `total` by the number of scanned files and the
three outcome counters, in total, by the same amount. -/
theorem runLoop_ok_stats (cfg : Config) (w : World) (msg : String) :
    ∀ (l : List ScannedFile) (st : LoopState),
      (runLoop cfg w msg st l).2 = none →
      (runLoop cfg w msg st l).1.stats.total = st.stats.total + l.length ∧
      (runLoop cfg w msg st l).1.stats.uploaded + (runLoop cfg w msg st l).1.stats.skipped
          + (runLoop cfg w msg st l).1.stats.failed
        = st.stats.uploaded + st.stats.skipped + st.stats.failed + l.length
  | [], st, _ => by simp [runLoop]
  | f :: rest, st, hok => by
    rcases hp : processFile cfg w msg st f with ⟨st1, e⟩
    cases e with
    | some err =>
      rw [runLoop, hp] at hok
      simp at hok
    | none =>
      rw [runLoop, hp] at hok ⊢
      dsimp only at hok ⊢
      obtain ⟨ht, hs, -⟩ := processFile_stats cfg w msg st st1 f hp
      obtain ⟨ht', hs'⟩ := runLoop_ok_stats cfg w msg rest st1 hok
      refine ⟨by rw [ht', ht]; simp [Nat.add_assoc, Nat.add_comm 1], ?_⟩
      rw [hs', hs]
      simp [List.length_cons]
      omega

/-- `failed` never decreases across the loop. -/
theorem runLoop_failed_mono (cfg : Config) (w : World) (msg : String) :
    ∀ (l : List ScannedFile) (st : LoopState),
      st.stats.failed ≤ (runLoop cfg w msg st l).1.stats.failed
  | [], st => le_refl _
  | f :: rest, st => by
    rcases hp : processFile cfg w msg st f with ⟨st1, e⟩
    have h1 : st.stats.failed ≤ st1.stats.failed := by
      have := processFile_failed_mono cfg w msg st f
      rw [hp] at this
      exact this
    cases e with
    | some err => rw [runLoop, hp]; exact h1
    | none =>
      rw [runLoop, hp]
      exact le_trans h1 (runLoop_failed_mono cfg w msg rest st1)

/-- The loop never touches cache entries of paths outside the scan. -/
theorem runLoop_cache_other (cfg : Config) (w : World) (msg : String) :
    ∀ (l : List ScannedFile) (st : LoopState) (p : String),
      p ∉ l.map ScannedFile.repoPath →
      (runLoop cfg w msg st l).1.cache p = st.cache p
  | [], st, p, _ => rfl
  | f :: rest, st, p, hp => by
    simp only [List.map_cons, List.mem_cons] at hp
    push_neg at hp
    obtain ⟨hp1, hp2⟩ := hp
    rcases hq : processFile cfg w msg st f with ⟨st1, e⟩
    have hother : st1.cache p = st.cache p := by
      have := processFile_cache_other cfg w msg st f p hp1
      rw [hq] at this
      exact this
    cases e with
    | some err => rw [runLoop, hq]; exact hother
    | none =>
      rw [runLoop, hq]
      rw [runLoop_cache_other cfg w msg rest st1 p hp2, hother]

/-- In dry-run mode the loop issues no call at all and leaves the cache
dict untouched. -/
theorem runLoop_dry_frame (cfg : Config) (w : World) (msg : String)
    (hdry : cfg.dry_run = true) :
    ∀ (l : List ScannedFile) (st : LoopState),
      (runLoop cfg w msg st l).1.calls = st.calls ∧
      (runLoop cfg w msg st l).1.cache = st.cache
  | [], st => ⟨rfl, rfl⟩
  | f :: rest, st => by
    rcases hp : processFile cfg w msg st f with ⟨st1, e⟩
    have hframe : st1.calls = st.calls ∧ st1.cache = st.cache := by
      have := processFile_dry_frame cfg w msg st f hdry
      rw [hp] at this
      exact this
    cases e with
    | some err => rw [runLoop, hp]; exact hframe
    | none =>
      rw [runLoop, hp]
      obtain ⟨hc, hh⟩ := runLoop_dry_frame cfg w msg hdry rest st1
      exact ⟨hc.trans hframe.1, hh.trans hframe.2⟩

/-- A read error somewhere in the scan aborts the run with an `fsError`. -/
theorem runLoop_abort (cfg : Config) (w : World) (msg : String) :
    ∀ (l : List ScannedFile) (st : LoopState),
      (∃ f ∈ l, f.content = none) →
      ∃ p, (runLoop cfg w msg st l).2 = some (.fsError p)
  | [], _, h => by simp at h
  | f :: rest, st, h => by
    rcases hq : processFile cfg w msg st f with ⟨st1, e⟩
    cases hc : f.content with
    | none =>
      refine ⟨f.repoPath, ?_⟩
      have : processFile cfg w msg st f =
          (⟨⟨st.stats.uploaded, st.stats.skipped, st.stats.failed, st.stats.total + 1⟩,
            st.cache, st.calls⟩, some (.fsError f.repoPath)) := by
        unfold processFile
        rw [hc]
      rw [runLoop, this]
    | some b =>
      have he : e = none := by
        have := processFile_some_snd cfg w msg st f b hc
        rw [hq] at this
        exact this
      subst he
      rw [runLoop, hq]
      apply runLoop_abort cfg w msg rest st1
      rcases h with ⟨g, hg, hgc⟩
      rcases List.mem_cons.mp hg with rfl | hgr
      · rw [hc] at hgc; cases hgc
      · exact ⟨g, hgr, hgc⟩

/-- When every scanned file is readable and its cache entry matches its
fingerprint, the loop only counts skips: no call, no cache change. -/
theorem runLoop_all_skip (cfg : Config) (w : World) (msg : String) :
    ∀ (l : List ScannedFile) (st : LoopState),
      (∀ f ∈ l, ∃ b, f.content = some b ∧ st.cache f.repoPath = some (file_md5 b)) →
      runLoop cfg w msg st l =
        (⟨⟨st.stats.uploaded, st.stats.skipped + l.length, st.stats.failed,
            st.stats.total + l.length⟩, st.cache, st.calls⟩, none)
  | [], st, _ => by simp [runLoop]
  | f :: rest, st, hall => by
    obtain ⟨b, hb, hcc⟩ := hall f (List.mem_cons_self _ _)
    have hstep : processFile cfg w msg st f =
        (⟨⟨st.stats.uploaded, st.stats.skipped + 1, st.stats.failed, st.stats.total + 1⟩,
          st.cache, st.calls⟩, none) := by
      unfold processFile
      rw [hb]
      dsimp only
      rw [if_pos hcc]
    rw [runLoop, hstep]
    dsimp only
    rw [runLoop_all_skip cfg w msg rest
      ⟨⟨st.stats.uploaded, st.stats.skipped + 1, st.stats.failed, st.stats.total + 1⟩,
        st.cache, st.calls⟩
      (fun g hg => hall g (List.mem_cons_of_mem _ hg))]
    simp [List.length_cons]
    constructor <;> omega

/-- After a completed, non-dry loop in which `failed` did not move and the
scanned paths are pairwise distinct, the cache dict maps every scanned path
to the fingerprint of the content that was scanned. -/
theorem runLoop_cache_after (cfg : Config) (w : World) (msg : String) :
    ∀ (l : List ScannedFile) (st st' : LoopState),
      runLoop cfg w msg st l = (st', none) →
      st'.stats.failed = st.stats.failed →
      cfg.dry_run = false →
      (l.map ScannedFile.repoPath).Nodup →
      ∀ f ∈ l, ∃ b, f.content = some b ∧ st'.cache f.repoPath = some (file_md5 b)
  | [], _, _, _, _, _, _, f, hf => by simp at hf
  | f :: rest, st, st', hrun, hfail, hdry, hnd, g, hg => by
    rcases hp : processFile cfg w msg st f with ⟨st1, e⟩
    cases e with
    | some err =>
      rw [runLoop, hp] at hrun
      simp at hrun
    | none =>
      rw [runLoop, hp] at hrun
      dsimp only at hrun
      have hf1 : st1.stats.failed = st.stats.failed := by
        have h1 : st.stats.failed ≤ st1.stats.failed := by
          have := processFile_failed_mono cfg w msg st f
          rw [hp] at this
          exact this
        have h2 : st1.stats.failed ≤ st'.stats.failed := by
          have := runLoop_failed_mono cfg w msg rest st1
          rw [hrun] at this
          exact this
        omega
      simp only [List.map_cons, List.nodup_cons] at hnd
      obtain ⟨hnf, hndr⟩ := hnd
      rcases List.mem_cons.mp hg with rfl | hgr
      · -- the head file: its entry is correct right after its own iteration
        -- and the rest of the loop does not touch it
        obtain ⟨b, hb⟩ := processFile_ok_content cfg w msg st st1 g hp
        have hother : st'.cache g.repoPath = st1.cache g.repoPath := by
          have := runLoop_cache_other cfg w msg rest st1 g.repoPath hnf
          rw [hrun] at this
          exact this
        refine ⟨b, hb, ?_⟩
        rw [hother]
        unfold processFile at hp
        rw [hb] at hp
        dsimp only at hp
        split_ifs at hp with h1 h2 h3
        · rw [Prod.mk.injEq] at hp
          obtain ⟨rfl, -⟩ := hp
          exact h1
        · rw [hdry] at h2; cases h2
        · rw [Prod.mk.injEq] at hp
          obtain ⟨rfl, -⟩ := hp
          simp [cacheInsert]
        · rw [Prod.mk.injEq] at hp
          obtain ⟨rfl, -⟩ := hp
          dsimp only at hf1
          omega
      · exact runLoop_cache_after cfg w msg rest st1 st' hrun
          (by rw [hfail, hf1]) hdry hndr g hgr

/-- When the pre-flight checks pass, `run_sync` is the loop run, with a
pre-flight trace of either just the repo check or the check plus the repo
creation. -/
theorem run_sync_preflight (cfg : Config) (w : World) (h : preflightOk cfg w = true) :
    ∃ calls0,
      (calls0 = [RemoteCall.ensureRepo] ∨
        calls0 = [RemoteCall.ensureRepo, RemoteCall.createRepo]) ∧
      run_sync cfg w = syncLoopRun cfg w (formatMessage cfg.commit_message w.date) calls0 := by
  unfold preflightOk at h
  simp only [Bool.and_eq_true, Bool.or_eq_true, bne_iff_ne, ne_eq] at h
  obtain ⟨⟨⟨⟨⟨h1, h2⟩, h3⟩, h4⟩, h5⟩, h6⟩ := h
  unfold run_sync
  rw [if_neg h1, if_neg h2, if_neg h3, if_neg h4, if_neg (by simp [h5])]
  by_cases he : ensure_repo_exists w = true
  · exact ⟨_, .inl rfl, by rw [if_pos he]⟩
  · rcases h6 with h6 | h6
    · exact absurd h6 he
    · exact ⟨_, .inr rfl, by rw [if_neg he, if_pos h6]⟩

/-- A run that returned stats passed all pre-flight checks. -/
theorem preflightOk_of_ok (cfg : Config) (w : World) (s : Stats)
    (h : (run_sync cfg w).result = .ok s) : preflightOk cfg w = true := by
  unfold run_sync at h
  unfold preflightOk
  split_ifs at h with h1 h2 h3 h4 h5 h6 h7
  · have h5' : w.libraryIsDir = true := by
      cases hb : w.libraryIsDir
      · exact absurd hb h5
      · rfl
    simp only [Bool.and_eq_true, Bool.or_eq_true, bne_iff_ne, ne_eq]
    exact ⟨⟨⟨⟨⟨h1, h2⟩, h3⟩, h4⟩, h5'⟩, Or.inl h6⟩
  · have h5' : w.libraryIsDir = true := by
      cases hb : w.libraryIsDir
      · exact absurd hb h5
      · rfl
    simp only [Bool.and_eq_true, Bool.or_eq_true, bne_iff_ne, ne_eq]
    exact ⟨⟨⟨⟨⟨h1, h2⟩, h3⟩, h4⟩, h5'⟩, Or.inr h7⟩

/-- A run that fails some pre-flight check produces an error result, leaves
the persisted cache alone, and has issued at most the pre-flight calls. -/
theorem run_sync_preflight_fail (cfg : Config) (w : World) (h : preflightOk cfg w = false) :
    ∃ e, (run_sync cfg w).result = .error e ∧
      (run_sync cfg w).persisted = w.initCache ∧
      ((run_sync cfg w).calls = [] ∨
        (run_sync cfg w).calls = [RemoteCall.ensureRepo, RemoteCall.createRepo]) := by
  unfold preflightOk at h
  unfold run_sync
  split_ifs with h1 h2 h3 h4 h5 h6 h7
  · exact ⟨_, rfl, rfl, Or.inl rfl⟩
  · exact ⟨_, rfl, rfl, Or.inl rfl⟩
  · exact ⟨_, rfl, rfl, Or.inl rfl⟩
  · exact ⟨_, rfl, rfl, Or.inl rfl⟩
  · exact ⟨_, rfl, rfl, Or.inl rfl⟩
  · exfalso
    have h5' : w.libraryIsDir = true := by
      cases hb : w.libraryIsDir
      · exact absurd hb h5
      · rfl
    simp [bne_iff_ne, h1, h2, h3, h4, h5', h6] at h
  · exfalso
    have h5' : w.libraryIsDir = true := by
      cases hb : w.libraryIsDir
      · exact absurd hb h5
      · rfl
    simp [bne_iff_ne, h1, h2, h3, h4, h5', h7] at h
  · exact ⟨_, rfl, rfl, Or.inr rfl⟩

/-- Claim C1 — Counter conservation: every run of the reconciliation loop
that ends with a stats report satisfies
`uploaded + skipped + failed = total`, where `total` counts exactly the
files the scanner yielded and each yielded file incremented exactly one of
the three outcome counters. -/
theorem run_sync_counter_conservation (cfg : Config) (w : World) (s : Stats)
    (h : (run_sync cfg w).result = .ok s) :
    s.uploaded + s.skipped + s.failed = s.total := by
  obtain ⟨calls0, -, heq⟩ := run_sync_preflight cfg w (preflightOk_of_ok cfg w s h)
  rw [heq] at h
  unfold syncLoopRun at h
  rcases hr : runLoop cfg w (formatMessage cfg.commit_message w.date)
      ⟨⟨0, 0, 0, 0⟩, w.initCache, calls0⟩ w.scan with ⟨st, e⟩
  rw [hr] at h
  cases e with
  | some err => simp at h
  | none =>
    have hs : st.stats = s := by simpa using h
    obtain ⟨ht, hsum⟩ := runLoop_ok_stats cfg w (formatMessage cfg.commit_message w.date)
      w.scan ⟨⟨0, 0, 0, 0⟩, w.initCache, calls0⟩ (by rw [hr])
    rw [hr] at ht hsum
    rw [← hs]
    dsimp only at ht hsum ⊢
    omega

/-- Witness for C1: a concrete completed run with one uploaded file. -/
theorem run_sync_counter_conservation_witness :
    (run_sync exCfg exWorld).result = .ok ⟨1, 0, 0, 1⟩ ∧ 1 + 0 + 0 = 1 :=
  ⟨rfl, run_sync_counter_conservation exCfg exWorld ⟨1, 0, 0, 1⟩ rfl⟩

/-- Claim C2, counterexample: with preview mode enabled and an inaccessible
repository, the pre-flight still issues the repository-creation POST — a
remote mutation — even though a file is pending upload, so a dry run does
not avoid every remote mutation. -/
theorem dry_run_issues_create_repo_counterexample :
    exCfgDry.dry_run = true ∧
    RemoteCall.createRepo ∈ (run_sync exCfgDry exWorldNoRepo).calls ∧
    (run_sync exCfgDry exWorldNoRepo).calls = [.ensureRepo, .createRepo] :=
  ⟨rfl, by decide, rfl⟩

/-- Claim C2 (amended) — Dry-run purity, restricted to the loop and the
cache: with preview mode enabled the persisted cache is never mutated and
no per-file remote call is issued — every call the run makes is one of the
two pre-flight calls (repository check, repository creation), the latter of
which is still a remote mutation. -/
theorem dry_run_purity_amended (cfg : Config) (w : World) (hdry : cfg.dry_run = true) :
    (run_sync cfg w).persisted = w.initCache ∧
    ∀ c ∈ (run_sync cfg w).calls, c = RemoteCall.ensureRepo ∨ c = RemoteCall.createRepo := by
  by_cases hp : preflightOk cfg w = true
  · obtain ⟨calls0, hc0, heq⟩ := run_sync_preflight cfg w hp
    rw [heq]
    unfold syncLoopRun
    rcases hr : runLoop cfg w (formatMessage cfg.commit_message w.date)
        ⟨⟨0, 0, 0, 0⟩, w.initCache, calls0⟩ w.scan with ⟨st, e⟩
    have frame := runLoop_dry_frame cfg w (formatMessage cfg.commit_message w.date) hdry
      w.scan ⟨⟨0, 0, 0, 0⟩, w.initCache, calls0⟩
    rw [hr] at frame
    dsimp only at frame
    have hcalls : ∀ c ∈ st.calls, c = RemoteCall.ensureRepo ∨ c = RemoteCall.createRepo := by
      rw [frame.1]
      intro c hc
      rcases hc0 with rfl | rfl
      · simp at hc
        exact Or.inl hc
      · simp at hc
        exact hc
    cases e with
    | some err => exact ⟨rfl, hcalls⟩
    | none =>
      refine ⟨?_, hcalls⟩
      dsimp only
      rw [hdry]
      simp
  · have hp' : preflightOk cfg w = false := by
      cases hb : preflightOk cfg w
      · rfl
      · exact absurd hb hp
    obtain ⟨e, -, hpers, hcalls⟩ := run_sync_preflight_fail cfg w hp'
    refine ⟨hpers, ?_⟩
    rcases hcalls with hc | hc <;> rw [hc]
    · simp
    · intro c hcm
      simp at hcm
      exact hcm

/-- Witness for C2 (amended): a concrete dry run over a world with an
uncached file: the on-disk cache is untouched and no per-file call is
made. -/
theorem dry_run_purity_amended_witness :
    (run_sync exCfgDry exWorld).persisted = exWorld.initCache ∧
    ∀ c ∈ (run_sync exCfgDry exWorld).calls,
      c = RemoteCall.ensureRepo ∨ c = RemoteCall.createRepo :=
  dry_run_purity_amended exCfgDry exWorld rfl

/-- Claim C3, counterexample: a filesystem read error on the first scanned
file aborts the whole run — the run returns an error instead of stats (so
the file is not counted as `failed`) and the following readable, uploadable
file is never attempted (the trace holds no call for it). -/
theorem fs_error_aborts_counterexample :
    (run_sync exCfg exWorldReadErr).result = .error (.fsError "x.py") ∧
    (run_sync exCfg exWorldReadErr).calls = [RemoteCall.ensureRepo] :=
  ⟨rfl, rfl⟩

/-- Claim C3 (amended): a filesystem read error while fingerprinting a
scanned file is not handled per-file: the exception propagates and aborts
the entire run with that error, and the cache is not persisted (the on-disk
cache stays as loaded). -/
theorem fs_error_aborts_run (cfg : Config) (w : World)
    (hpre : preflightOk cfg w = true)
    (herr : ∃ f ∈ w.scan, f.content = none) :
    ∃ p, (run_sync cfg w).result = .error (.fsError p) ∧
      (run_sync cfg w).persisted = w.initCache := by
  obtain ⟨calls0, -, heq⟩ := run_sync_preflight cfg w hpre
  rw [heq]
  unfold syncLoopRun
  obtain ⟨p, hp⟩ := runLoop_abort cfg w (formatMessage cfg.commit_message w.date)
    w.scan ⟨⟨0, 0, 0, 0⟩, w.initCache, calls0⟩ herr
  rcases hr : runLoop cfg w (formatMessage cfg.commit_message w.date)
      ⟨⟨0, 0, 0, 0⟩, w.initCache, calls0⟩ w.scan with ⟨st, e⟩
  rw [hr] at hp
  cases e with
  | none => simp at hp
  | some err =>
    have herr' : err = .fsError p := by simpa using hp
    subst herr'
    exact ⟨p, rfl, rfl⟩

/-- Witness for C3 (amended): the concrete aborting run. -/
theorem fs_error_aborts_run_witness :
    ∃ p, (run_sync exCfg exWorldReadErr).result = .error (.fsError p) ∧
      (run_sync exCfg exWorldReadErr).persisted = exWorldReadErr.initCache :=
  fs_error_aborts_run exCfg exWorldReadErr (by decide) ⟨⟨"x.py", none⟩, by decide, rfl⟩

/-- Claim C4 — Write-failure handling: when the remote write for a scanned
file fails, the iteration increments `failed` (only), leaves the cache dict
unchanged, and the loop continues with the remaining files; and any later
processing of the same file against the same (unchanged) cache entry again
issues the lookup and the write rather than skipping. -/
theorem put_failure_keeps_cache_and_retries (cfg : Config) (w : World) (msg : String)
    (st : LoopState) (f : ScannedFile) (b : List Nat)
    (hb : f.content = some b)
    (hmiss : st.cache f.repoPath ≠ some (file_md5 b))
    (hdry : cfg.dry_run = false)
    (hfail : ¬put_succeeds w f.repoPath) :
    processFile cfg w msg st f =
      (⟨⟨st.stats.uploaded, st.stats.skipped, st.stats.failed + 1, st.stats.total + 1⟩,
        st.cache,
        st.calls ++ [.getSha f.repoPath (get_file_sha w f.repoPath),
          .putFile f.repoPath b msg (shaPayload (get_file_sha w f.repoPath))]⟩, none) ∧
    (∀ rest, runLoop cfg w msg st (f :: rest) =
      runLoop cfg w msg
        ⟨⟨st.stats.uploaded, st.stats.skipped, st.stats.failed + 1, st.stats.total + 1⟩,
          st.cache,
          st.calls ++ [.getSha f.repoPath (get_file_sha w f.repoPath),
            .putFile f.repoPath b msg (shaPayload (get_file_sha w f.repoPath))]⟩ rest) ∧
    (∀ (w₂ : World) (msg₂ : String) (st₂ : LoopState),
      st₂.cache f.repoPath = st.cache f.repoPath →
      ∃ st₃, processFile cfg w₂ msg₂ st₂ f = (st₃, none) ∧
        st₃.stats.skipped = st₂.stats.skipped ∧
        st₃.calls = st₂.calls ++ [.getSha f.repoPath (get_file_sha w₂ f.repoPath),
          .putFile f.repoPath b msg₂ (shaPayload (get_file_sha w₂ f.repoPath))]) := by
  have hstep : processFile cfg w msg st f =
      (⟨⟨st.stats.uploaded, st.stats.skipped, st.stats.failed + 1, st.stats.total + 1⟩,
        st.cache,
        st.calls ++ [.getSha f.repoPath (get_file_sha w f.repoPath),
          .putFile f.repoPath b msg (shaPayload (get_file_sha w f.repoPath))]⟩, none) := by
    unfold processFile
    rw [hb]
    dsimp only
    rw [if_neg hmiss, if_neg (by simp [hdry]), if_neg hfail]
  refine ⟨hstep, ?_, ?_⟩
  · intro rest
    rw [runLoop, hstep]
  · intro w₂ msg₂ st₂ hcache
    unfold processFile
    rw [hb]
    dsimp only
    rw [hcache, if_neg hmiss, if_neg (by simp [hdry])]
    by_cases hw : put_succeeds w₂ f.repoPath
    · rw [if_pos hw]
      exact ⟨_, rfl, rfl, rfl⟩
    · rw [if_neg hw]
      exact ⟨_, rfl, rfl, rfl⟩

/-- Witness for C4: a failing PUT on an uncached file. -/
theorem put_failure_keeps_cache_and_retries_witness :
    processFile exCfg exWorldPutFail "m" exSt ⟨"a.py", some [104, 105]⟩ =
      (⟨⟨0, 0, 1, 1⟩, exSt.cache,
        [.getSha "a.py" none, .putFile "a.py" [104, 105] "m" none]⟩, none) :=
  (put_failure_keeps_cache_and_retries exCfg exWorldPutFail "m" exSt
    ⟨"a.py", some [104, 105]⟩ [104, 105] rfl (by simp [exSt]) rfl (by decide)).1

/-- Claim C6, counterexample: the remote lookup returns the token `""`
(HTTP 200 whose body carries an empty `"sha"`), yet the write call omits
the token (`if sha:` is Python-falsy on the empty string), so the write
does not carry the token the lookup returned. -/
theorem token_threading_counterexample :
    get_file_sha exWorldEmptySha "a.py" = some "" ∧
    (run_sync exCfg exWorldEmptySha).calls =
      [.ensureRepo, .getSha "a.py" (some ""),
        .putFile "a.py" [104, 105] "msg" none] ∧
    some "" ≠ (none : Option String) :=
  ⟨rfl, rfl, by simp⟩

/-- Claim C6 (amended) — Create-versus-update token threading: for every
uploaded file the write request directly follows the lookup and carries a
token `t` if and only if the lookup returned `t` and `t` is non-empty;
when the lookup returns no token, or the empty token, the write omits the
token field. -/
theorem token_threading_amended (cfg : Config) (w : World) (msg : String) (st : LoopState)
    (f : ScannedFile) (b : List Nat)
    (hb : f.content = some b)
    (hmiss : st.cache f.repoPath ≠ some (file_md5 b))
    (hdry : cfg.dry_run = false) :
    ∃ st', processFile cfg w msg st f = (st', none) ∧
      st'.calls = st.calls ++ [.getSha f.repoPath (get_file_sha w f.repoPath),
        .putFile f.repoPath b msg (shaPayload (get_file_sha w f.repoPath))] ∧
      ∀ t : String, shaPayload (get_file_sha w f.repoPath) = some t ↔
        (get_file_sha w f.repoPath = some t ∧ t ≠ "") := by
  have hiff : ∀ t : String, shaPayload (get_file_sha w f.repoPath) = some t ↔
      (get_file_sha w f.repoPath = some t ∧ t ≠ "") := by
    intro t
    cases hr : get_file_sha w f.repoPath with
    | none => simp [shaPayload]
    | some s =>
      show (if s = "" then none else some s) = some t ↔ (some s = some t ∧ t ≠ "")
      by_cases hs : s = ""
      · subst hs
        simp
        intro ht
        subst ht
        simp
      · rw [if_neg hs]
        constructor
        · intro hst
          obtain rfl := Option.some_inj.mp hst
          exact ⟨rfl, hs⟩
        · rintro ⟨hst, -⟩
          exact hst
  unfold processFile
  rw [hb]
  dsimp only
  rw [if_neg hmiss, if_neg (by simp [hdry])]
  by_cases hw : put_succeeds w f.repoPath
  · rw [if_pos hw]
    exact ⟨_, rfl, rfl, hiff⟩
  · rw [if_neg hw]
    exact ⟨_, rfl, rfl, hiff⟩

/-- Witness for C6 (amended): the world whose lookup answers with the empty
token. -/
theorem token_threading_amended_witness :
    ∃ st', processFile exCfg exWorldEmptySha "m" exSt ⟨"a.py", some [104, 105]⟩ = (st', none) ∧
      st'.calls = exSt.calls ++ [.getSha "a.py" (get_file_sha exWorldEmptySha "a.py"),
        .putFile "a.py" [104, 105] "m" (shaPayload (get_file_sha exWorldEmptySha "a.py"))] ∧
      ∀ t : String, shaPayload (get_file_sha exWorldEmptySha "a.py") = some t ↔
        (get_file_sha exWorldEmptySha "a.py" = some t ∧ t ≠ "") :=
  token_threading_amended exCfg exWorldEmptySha "m" exSt ⟨"a.py", some [104, 105]⟩
    [104, 105] rfl (by simp [exSt]) rfl

/-- Claim C7, counterexample: a 500 lookup response is treated exactly like
the 404 not-found response — no token, no failure: the subsequent run even
uploads the file (as a create) instead of hard-failing it. -/
theorem lookup_error_counterexample :
    get_file_sha exWorldLookup500 "a.py" = none ∧
    get_file_sha exWorld "a.py" = none ∧
    (run_sync exCfg exWorldLookup500).result = .ok ⟨1, 0, 0, 1⟩ ∧
    (run_sync exCfg exWorldLookup500).calls =
      [.ensureRepo, .getSha "a.py" none, .putFile "a.py" [104, 105] "msg" none] :=
  ⟨rfl, rfl, rfl, rfl⟩

/-- Claim C7 (amended): the lookup treats every non-200 response —
not-found and every other non-success status alike — as "the file does not
exist remotely" and returns no token; no response status makes the lookup
itself fail. -/
theorem lookup_non200_amended (w : World) (p : String)
    (h : (w.fileResp p).status ≠ 200) : get_file_sha w p = none := by
  unfold get_file_sha
  rw [if_neg h]

/-- Witness for C7 (amended): the 500 response. -/
theorem lookup_non200_amended_witness : get_file_sha exWorldLookup500 "a.py" = none :=
  lookup_non200_amended exWorldLookup500 "a.py" (by decide)

/-- Claim C5, counterexample: the first run completes (returns stats) and
persists its cache, but one file's write failed in it; the second run over
the same files with the same unchanged content then uploads that file
(1 upload, not 0, and not every file skipped) — by design of the
write-failure retry, which contradicts unrestricted idempotence. -/
theorem idempotence_counterexample :
    (run_sync exCfg exWorldPutFail).result = .ok ⟨0, 0, 1, 1⟩ ∧
    exWorldRetry.scan = exWorldPutFail.scan ∧
    exWorldRetry.initCache = (run_sync exCfg exWorldPutFail).persisted ∧
    (run_sync exCfg exWorldRetry).result = .ok ⟨1, 0, 0, 1⟩ :=
  ⟨rfl, rfl, rfl, rfl⟩

/-- Claim C5 (amended) — Idempotence of a fully successful run: if a first
non-preview run completes with `failed = 0` and persists its cache, then a
second run over the same scanned files (distinct paths, identical content)
starting from that cache uploads zero files, fails none, skips every
scanned file, and issues no per-file remote call. -/
theorem idempotence_amended (cfg : Config) (w₁ w₂ : World) (s₁ : Stats)
    (h1 : (run_sync cfg w₁).result = .ok s₁)
    (hfail : s₁.failed = 0)
    (hdry : cfg.dry_run = false)
    (hnd : (w₁.scan.map ScannedFile.repoPath).Nodup)
    (hscan : w₂.scan = w₁.scan)
    (hcache : w₂.initCache = (run_sync cfg w₁).persisted)
    (hpre : preflightOk cfg w₂ = true) :
    ∃ s₂, (run_sync cfg w₂).result = .ok s₂ ∧ s₂.uploaded = 0 ∧ s₂.failed = 0 ∧
      s₂.skipped = s₂.total ∧
      ∀ c ∈ (run_sync cfg w₂).calls, isFileCall c = false := by
  obtain ⟨c01, -, he1⟩ := run_sync_preflight cfg w₁ (preflightOk_of_ok cfg w₁ s₁ h1)
  rw [he1] at h1 hcache
  unfold syncLoopRun at h1 hcache
  rcases hr1 : runLoop cfg w₁ (formatMessage cfg.commit_message w₁.date)
      ⟨⟨0, 0, 0, 0⟩, w₁.initCache, c01⟩ w₁.scan with ⟨st1, e1⟩
  rw [hr1] at h1 hcache
  cases e1 with
  | some err => simp at h1
  | none =>
    have hs1 : st1.stats = s₁ := by simpa using h1
    have hcache' : w₂.initCache = st1.cache := by
      rw [hcache]
      dsimp only
      rw [hdry]
      simp
    have hfacts := runLoop_cache_after cfg w₁ (formatMessage cfg.commit_message w₁.date)
      w₁.scan ⟨⟨0, 0, 0, 0⟩, w₁.initCache, c01⟩ st1 hr1
      (by rw [hs1, hfail]) hdry hnd
    obtain ⟨c02, hc02, he2⟩ := run_sync_preflight cfg w₂ hpre
    rw [he2]
    unfold syncLoopRun
    have hall : ∀ f ∈ w₂.scan, ∃ b, f.content = some b ∧
        (⟨⟨0, 0, 0, 0⟩, w₂.initCache, c02⟩ : LoopState).cache f.repoPath
          = some (file_md5 b) := by
      intro f hf
      rw [hscan] at hf
      obtain ⟨b, hb, hcb⟩ := hfacts f hf
      exact ⟨b, hb, by dsimp only; rw [hcache']; exact hcb⟩
    rw [runLoop_all_skip cfg w₂ (formatMessage cfg.commit_message w₂.date)
      w₂.scan ⟨⟨0, 0, 0, 0⟩, w₂.initCache, c02⟩ hall]
    refine ⟨⟨0, 0 + w₂.scan.length, 0, 0 + w₂.scan.length⟩, rfl, rfl, rfl, rfl, ?_⟩
    intro c hc
    dsimp only at hc
    rcases hc02 with rfl | rfl
    · simp at hc
      rw [hc]
      rfl
    · simp at hc
      rcases hc with rfl | rfl <;> rfl

/-- Witness for C5 (amended): a clean first run over one file, then the
second run over the same world with the persisted cache. -/
theorem idempotence_amended_witness :
    ∃ s₂, (run_sync exCfg exWorldSecond).result = .ok s₂ ∧ s₂.uploaded = 0 ∧
      s₂.failed = 0 ∧ s₂.skipped = s₂.total ∧
      ∀ c ∈ (run_sync exCfg exWorldSecond).calls, isFileCall c = false :=
  idempotence_amended exCfg exWorld exWorldSecond ⟨1, 0, 0, 1⟩ rfl rfl rfl
    (by decide) rfl rfl (by decide)

/-- Claim C8 — Filter exclusivity: a file under a deny-listed directory is
never yielded by the scanner (whatever its extension), and a file whose
byte size exceeds `max_file_size_mb * 1048576` is never yielded (however
otherwise eligible). -/
theorem collect_files_filter_exclusive (cfg : ScanConfig) (t : FSTree) (e : Entry)
    (h : (∃ d ∈ e.dirs, d ∈ cfg.ignore_dirs) ∨ cfg.max_mb * 1048576 < (e.size : ℤ)) :
    e ∉ collect_files cfg t := by
  intro hmem
  rcases h with ⟨d, hd, hdi⟩ | hsz
  · obtain ⟨ds, hds, hclean⟩ := collectNode_dirs_clean cfg [] t e hmem
    rw [List.nil_append] at hds
    exact hclean d (by rw [← hds]; exact hd) hdi
  · refine collectNode_size_ok cfg [] t e hmem ?_
    unfold max_bytes
    have : cfg.max_mb * 1024 * 1024 = cfg.max_mb * 1048576 := by ring
    rw [this]
    exact hsz

/-- Witness for C8: the deny-listed `build/b.py` (allow-listed extension)
and the over-limit `big.py` are both absent from the scan of `exTree`. -/
theorem collect_files_filter_exclusive_witness :
    (⟨["build"], "b.py", 5⟩ : Entry) ∉ collect_files exScanCfg exTree ∧
    (⟨[], "big.py", 10485761⟩ : Entry) ∉ collect_files exScanCfg exTree :=
  ⟨collect_files_filter_exclusive exScanCfg exTree ⟨["build"], "b.py", 5⟩
      (Or.inl (by decide)),
    collect_files_filter_exclusive exScanCfg exTree ⟨[], "big.py", 10485761⟩
      (Or.inr (by decide))⟩

/-- Claim C10 — Size-limit boundary: an otherwise eligible file whose byte
size is exactly `max_file_size_mb * 1048576` is yielded by the scanner:
the size filter excludes only strictly larger files. -/
theorem size_at_limit_is_yielded (cfg : ScanConfig) (t : FSTree) (ds : List String)
    (fi : FileInfo)
    (hf : (ds, fi) ∈ filesOfNode t)
    (hd : ∀ d ∈ ds, d ∉ cfg.ignore_dirs)
    (hext : ¬(cfg.extensions ≠ [] ∧ lowerStr (pathSuffix fi.name) ∉ cfg.extensions.map lowerStr))
    (hs : (fi.size : ℤ) = cfg.max_mb * 1048576) :
    (⟨ds, fi.name, fi.size⟩ : Entry) ∈ collect_files cfg t := by
  have hsz : ¬(max_bytes cfg < (fi.size : ℤ)) := by
    unfold max_bytes
    rw [hs]
    have : cfg.max_mb * 1024 * 1024 = cfg.max_mb * 1048576 := by ring
    rw [this]
    exact lt_irrefl _
  have hmem := mem_collectNode_of_filesOf cfg [] t ds fi hf hd hext hsz
  simpa using hmem

/-- Witness for C10: `edge.py` of size exactly `10 * 1048576` is yielded. -/
theorem size_at_limit_is_yielded_witness :
    (⟨[], "edge.py", 10485760⟩ : Entry) ∈ collect_files exScanCfg exTree :=
  size_at_limit_is_yielded exScanCfg exTree [] ⟨"edge.py", 10485760⟩
    (by decide) (by simp) (by decide) (by decide)
